import Mathlib

/-!
Shallow embedding of the typit runtime type-descriptor algebra:
the `UnionType`, `OptionalType` and `EnumType` descriptors and the
`MalformedObjectError` failure record, translated from the TypeScript
sources, together with theorems checking the specification's claims
about them.
-/

/--
Model of a JavaScript runtime value as far as the descriptors observe it.
Objects carry a reference identifier (`ref`) and opaque contents; JS strict
equality (`===`) compares objects by reference identity only, never by
contents. Numbers are modelled as integers (no floating-point NaN).
-/
inductive Value where
  | str : String → Value
  | num : Int → Value
  | bool : Bool → Value
  | undef : Value
  | null : Value
  | obj : (ref : Nat) → (contents : String) → Value
deriving DecidableEq, Repr

/--
JS strict equality `===`: primitives compare by value, objects by reference
identity; values of different kinds are never strictly equal.
-/
def strictEq : Value → Value → Bool
  | .str a, .str b => a == b
  | .num a, .num b => a == b
  | .bool a, .bool b => a == b
  | .undef, .undef => true
  | .null, .null => true
  | .obj r1 _, .obj r2 _ => r1 == r2
  | _, _ => false

/--
The descriptor algebra. `leaf` models an external primitive descriptor
(out of scope in the repository, a peer implementation of the `Type`
contract): it is determined by its name and its two conformity predicates.
`enumType` is `EnumType` (acceptable values plus the optional constructor
argument `typeName`), `unionType` is `UnionType` (the ordered member list),
`optionalType` is `OptionalType` (the encapsulated type).
-/
inductive Ty where
  | leaf : String → (Value → Bool) → (Value → Bool) → Ty
  | enumType : List Value → Option String → Ty
  | unionType : List Ty → Ty
  | optionalType : Ty → Ty

mutual

/--
`getTypeName`, computed from the construction arguments exactly as each
constructor computes the stored `typeName` field:
`EnumType` uses the given name or defaults to "enum"; `UnionType` runs the
separator-accumulating loop starting from the empty string; `OptionalType`
parenthesizes the inner name when it includes a space and appends "?"
(`includes(" ")` with a one-character needle is membership of the space
character in the string, written here on the character list).
-/
def getTypeName : Ty → String
  | .leaf n _ _ => n
  | .enumType _ nm => nm.getD "enum"
  | .unionType ts => unionNameFold ts ""
  | .optionalType t =>
      (if (getTypeName t).data.contains ' ' then "(" ++ getTypeName t ++ ")"
       else getTypeName t) ++ "?"

/--
The `UnionType` constructor's name loop: for each member, append " | " to
the accumulator only if the accumulator is non-empty, then append the
member's type name.
-/
def unionNameFold : List Ty → String → String
  | [], acc => acc
  | t :: ts, acc =>
      unionNameFold ts ((if acc != "" then acc ++ " | " else acc) ++ getTypeName t)

end

/--
`isOptional`: `OptionalType` overrides it to return true unconditionally;
every other descriptor keeps the `AbstractType` default of false.
-/
def isOptional : Ty → Bool
  | .optionalType _ => true
  | _ => false

mutual

/--
`checkConformity`: `EnumType` accepts inputs strictly equal to some
acceptable value; `UnionType` accepts inputs conforming to some member
(`Array.some`, short-circuiting, modelled by `checkConformityList`);
`OptionalType` delegates to the encapsulated type; a leaf applies its own
predicate.
-/
def checkConformity : Ty → Value → Bool
  | .leaf _ c _, v => c v
  | .enumType vals _, v => vals.any (fun a => strictEq a v)
  | .unionType ts, v => checkConformityList ts v
  | .optionalType t, v => checkConformity t v

/--
The short-circuiting `Array.some` scan of `UnionType.checkConformity` over
the member list.
-/
def checkConformityList : List Ty → Value → Bool
  | [], _ => false
  | t :: ts, v => checkConformity t v || checkConformityList ts v

end

/--
The "exactly one match" scan shared (textually identical loops) by
`UnionType.exhaustivelyCheckConformity` and
`EnumType.exhaustivelyCheckConformity`: walk the list with a `once` flag,
return false immediately on a second match, and return the flag when the
scan completes.
-/
def exhaustScan (p : α → Bool) : List α → Bool → Bool
  | [], once => once
  | a :: l, once =>
      if p a then
        if once then false else exhaustScan p l true
      else exhaustScan p l once

/--
`exhaustivelyCheckConformity`: `EnumType` runs the exactly-one scan with
strict equality, `UnionType` runs it with each member's (plain)
`checkConformity`, `OptionalType` delegates to the encapsulated type, and a
leaf applies its own exhaustive predicate.
-/
def exhaustivelyCheckConformity : Ty → Value → Bool
  | .leaf _ _ e, v => e v
  | .enumType vals _, v => exhaustScan (fun a => strictEq a v) vals false
  | .unionType ts, v => exhaustScan (fun t => checkConformity t v) ts false
  | .optionalType t, v => exhaustivelyCheckConformity t v

/--
The `MalformedObjectError` failure record: its five public readonly fields.
-/
structure MalformedObjectError where
  path : List String
  readablePath : String
  expectedType : Ty
  actualType : Ty
  actualValue : Value

/--
The `MalformedObjectError` constructor, parameterized by the external
`TypeInferer.infer` function (the spec's Value Inferer, an out-of-scope
collaborator): stores the path, builds `readablePath` by appending "." and
each path item to "*", and defaults `actualType` to `infer actualValue`
when the optional argument is omitted.
-/
def MalformedObjectError.make (infer : Value → Ty) (path : List String)
    (expectedType : Ty) (actualValue : Value) (actualType : Option Ty) :
    MalformedObjectError :=
  { path := path
    readablePath := path.foldl (fun acc item => acc ++ "." ++ item) "*"
    expectedType := expectedType
    actualType := actualType.getD (infer actualValue)
    actualValue := actualValue }

/--
`MalformedObjectError.prependPath`: pushes the existing path onto the end
of the given segments and constructs a new record from the combined path,
the existing `expectedType` and the existing `actualValue` — the
`actualType` argument is not passed, so the constructor re-infers it.
-/
def MalformedObjectError.prependPath (infer : Value → Ty)
    (e : MalformedObjectError) (segments : List String) :
    MalformedObjectError :=
  MalformedObjectError.make infer (segments ++ e.path) e.expectedType
    e.actualValue none

/-- Tag of a value's primitive kind, used by the modelled Value Inferer. -/
def kindName : Value → String
  | .str _ => "string"
  | .num _ => "number"
  | .bool _ => "boolean"
  | .undef => "undefined"
  | .null => "null"
  | .obj _ _ => "object"

/--
Modelled from the spec: the external Value Inferer (`TypeInferer.infer`,
not among the core sources) — "a single pure function
`infer(value: any) -> Descriptor`, total (never fails)", returning the most
specific matching descriptor; modelled as the leaf descriptor named after
the value's kind and accepting exactly the values of that kind.
-/
def modelInfer (v : Value) : Ty :=
  Ty.leaf (kindName v) (fun w => kindName w == kindName v)
    (fun w => kindName w == kindName v)

/--
Predicate selecting the two descriptor variants (union and enumerated)
whose exhaustive and plain conformity predicates C10 relates.
-/
def isUnionOrEnumType : Ty → Bool
  | .unionType _ => true
  | .enumType _ _ => true
  | _ => false

/--
The specification's reading of the union name — member names "joined with
the separator string" in order — stated as its own definition so the
constructor's accumulator loop can be compared against it.
-/
def joinNames : List String → String
  | [] => ""
  | [n] => n
  | n :: ns => n ++ " | " ++ joinNames ns

/-- JS strict equality is reflexive on the modelled values (no NaN). -/
theorem strictEq_refl (v : Value) : strictEq v v = true := by
  cases v <;> simp [strictEq]

/--
The member scan of `UnionType.checkConformity` is the boolean "some member
conforms".
-/
theorem checkConformityList_eq_any (ts : List Ty) (v : Value) :
    checkConformityList ts v = ts.any fun t => checkConformity t v := by
  induction ts with
  | nil => rfl
  | cons t ts ih => simp [checkConformityList, ih]

/--
The exactly-one scan returns true iff the number of matches in the
remaining list, plus one if a match has already been seen, is exactly one.
-/
theorem exhaustScan_eq_true (p : α → Bool) (l : List α) (once : Bool) :
    exhaustScan p l once = true ↔
      l.countP p + (if once then 1 else 0) = 1 := by
  induction l generalizing once with
  | nil => cases once <;> simp [exhaustScan]
  | cons a l ih =>
      cases h : p a <;> cases once <;>
        simp [exhaustScan, h, ih, List.countP_cons]

/--
C2: for every list of union members and every input, the union's
`exhaustivelyCheckConformity` returns true iff exactly one member's
`checkConformity` holds on that input (so with two or more matching
members the match count is not one and the result is false).
-/
theorem unionType_exhaustive_iff_unique_match (ts : List Ty) (x : Value) :
    exhaustivelyCheckConformity (Ty.unionType ts) x = true ↔
      ts.countP (fun t => checkConformity t x) = 1 := by
  simp [exhaustivelyCheckConformity, exhaustScan_eq_true]

/--
C3: an enumerated descriptor over the duplicate list [a, a] rejects a under
`exhaustivelyCheckConformity` while accepting it under `checkConformity`;
in general `exhaustivelyCheckConformity` holds iff exactly one list entry
is strictly equal to the input.
-/
theorem enumType_exhaustive_duplicates :
    (∀ (a : Value) (nm : Option String),
        exhaustivelyCheckConformity (Ty.enumType [a, a] nm) a = false ∧
          checkConformity (Ty.enumType [a, a] nm) a = true) ∧
    (∀ (vals : List Value) (nm : Option String) (x : Value),
        exhaustivelyCheckConformity (Ty.enumType vals nm) x = true ↔
          vals.countP (fun a => strictEq a x) = 1) := by
  refine ⟨fun a nm => ⟨?_, ?_⟩, fun vals nm x => ?_⟩
  · rw [← Bool.not_eq_true]
    simp [exhaustivelyCheckConformity, exhaustScan_eq_true, List.countP_cons,
      strictEq_refl]
  · simp [checkConformity, strictEq_refl]
  · simp [exhaustivelyCheckConformity, exhaustScan_eq_true]

/--
C4: the optional wrapper delegates both conformity predicates to the
encapsulated type on every input (no special case for any value, including
`undefined`).
-/
theorem optionalType_delegates (t : Ty) (v : Value) :
    checkConformity (Ty.optionalType t) v = checkConformity t v ∧
      exhaustivelyCheckConformity (Ty.optionalType t) v =
        exhaustivelyCheckConformity t v :=
  ⟨rfl, rfl⟩

/--
C5: for every non-empty union and every input, `checkConformity` returns
true iff some member's `checkConformity` returns true on that input.
-/
theorem unionType_conformity_iff_exists_member (ts : List Ty) (x : Value)
    (_hne : ts ≠ []) :
    checkConformity (Ty.unionType ts) x = true ↔
      ∃ t ∈ ts, checkConformity t x = true := by
  simp [checkConformity, checkConformityList_eq_any]

/-- Witness for C5 at the one-member union over the enum accepting null. -/
theorem unionType_conformity_iff_exists_member_witness :
    ([Ty.enumType [Value.null] none] ≠ ([] : List Ty)) ∧
      (checkConformity (Ty.unionType [Ty.enumType [Value.null] none])
          Value.null = true ↔
        ∃ t ∈ [Ty.enumType [Value.null] none],
          checkConformity t Value.null = true) :=
  ⟨List.cons_ne_nil _ _,
    unionType_conformity_iff_exists_member _ _ (List.cons_ne_nil _ _)⟩

/--
C9: the (malformed) empty union reports no value as conforming, under
either conformity predicate.
-/
theorem empty_union_never_conforms (x : Value) :
    checkConformity (Ty.unionType []) x = false ∧
      exhaustivelyCheckConformity (Ty.unionType []) x = false :=
  ⟨rfl, rfl⟩

/--
C6: enumerated conformity is strict-equality membership in the acceptable
values, and two distinct object instances with identical contents are not
equal, so an enum listing one object instance rejects a different instance
with the same contents.
-/
theorem enumType_conformity_strict_membership (vals : List Value)
    (nm : Option String) (x : Value) (r1 r2 : Nat) (c : String)
    (h : r1 ≠ r2) :
    (checkConformity (Ty.enumType vals nm) x = true ↔
        ∃ a ∈ vals, strictEq a x = true) ∧
      checkConformity (Ty.enumType [Value.obj r1 c] nm) (Value.obj r2 c) =
        false := by
  refine ⟨by simp [checkConformity], ?_⟩
  simp [checkConformity, strictEq, h]

/--
Witness for C6 at the enum over [null] checked on null, with object
references 0 and 1 sharing contents "c".
-/
theorem enumType_conformity_strict_membership_witness :
    ((0 : Nat) ≠ 1) ∧
      ((checkConformity (Ty.enumType [Value.null] none) Value.null = true ↔
          ∃ a ∈ [Value.null], strictEq a Value.null = true) ∧
        checkConformity (Ty.enumType [Value.obj 0 "c"] none)
            (Value.obj 1 "c") = false) :=
  ⟨by decide,
    enumType_conformity_strict_membership [Value.null] none Value.null 0 1
      "c" (by decide)⟩

/--
C7: the optional wrapper's name is the inner name followed by "?", with the
inner name parenthesized exactly when it contains a space, and its
`isOptional` is unconditionally true; in particular inner name "A" gives
"A?" and inner name "B C" gives "(B C)?".
-/
theorem optionalType_name_and_optionality (t : Ty) :
    getTypeName (Ty.optionalType t) =
        (if ' ' ∈ (getTypeName t).data then "(" ++ getTypeName t ++ ")"
         else getTypeName t) ++ "?" ∧
      isOptional (Ty.optionalType t) = true ∧
      getTypeName (Ty.optionalType (Ty.enumType [] (some "A"))) = "A?" ∧
      getTypeName (Ty.optionalType (Ty.enumType [] (some "B C"))) =
        "(B C)?" := by
  refine ⟨?_, rfl, rfl, rfl⟩
  by_cases hsp : ' ' ∈ (getTypeName t).data
  · simp [getTypeName, hsp, List.contains, List.elem_eq_mem]
  · simp [getTypeName, hsp, List.contains, List.elem_eq_mem]

/-- Appending to a non-empty string yields a non-empty string. -/
theorem string_append_ne_empty (a b : String) (h : a ≠ "") :
    a ++ b ≠ "" := by
  intro hab
  apply h
  have hd := congrArg String.data hab
  rw [String.data_append] at hd
  exact String.ext (List.append_eq_nil.mp hd).1

/--
Joining a list whose head already ends in the separator and a name equals
the separator-join of the unfused list.
-/
theorem joinNames_cons_append (a n : String) (rest : List String) :
    joinNames ((a ++ " | " ++ n) :: rest) =
      a ++ " | " ++ joinNames (n :: rest) := by
  cases rest with
  | nil => simp [joinNames]
  | cons m ms => simp [joinNames, String.append_assoc]

/--
With a non-empty accumulator, the union constructor's name loop computes
the separator-join of the accumulator followed by the member names.
-/
theorem unionNameFold_acc (ts : List Ty) (acc : String) (h : acc ≠ "") :
    unionNameFold ts acc = joinNames (acc :: ts.map getTypeName) := by
  induction ts generalizing acc with
  | nil => simp [unionNameFold, joinNames]
  | cons t ts ih =>
      have hstep : (if acc != "" then acc ++ " | " else acc) ++ getTypeName t
          = acc ++ " | " ++ getTypeName t := by
        simp [bne_iff_ne, h]
      rw [unionNameFold, hstep,
        ih _ (string_append_ne_empty _ _ (string_append_ne_empty _ _ h)),
        joinNames_cons_append]
      simp [joinNames]

/--
C8 counterexample: a union whose first member has the empty name (an empty
union, whose own name is "") is named "A", not the " | "-join " | A" of its
members' names — the constructor's loop drops the separator while the
accumulated name is still empty.
-/
theorem unionType_name_empty_member_counterexample :
    getTypeName (Ty.unionType [Ty.unionType [], Ty.enumType [] (some "A")])
        = "A" ∧
      joinNames (List.map getTypeName
          [Ty.unionType [], Ty.enumType [] (some "A")]) = " | A" ∧
      ("A" : String) ≠ " | A" :=
  ⟨rfl, rfl, by decide⟩

/--
C8 (amended): whenever the first member's name is non-empty, the union's
name is the member names joined with " | " in declaration order (no
deduplication, no sorting); with an empty-named first member the loop
omits that member's separator.
-/
theorem unionType_name_join (t : Ty) (ts : List Ty)
    (h : getTypeName t ≠ "") :
    getTypeName (Ty.unionType (t :: ts)) =
      joinNames ((t :: ts).map getTypeName) := by
  have h0 : getTypeName (Ty.unionType (t :: ts)) =
      unionNameFold ts (getTypeName t) := by
    simp [getTypeName, unionNameFold]
  rw [h0, unionNameFold_acc ts _ h]
  simp

/-- Witness for C8 (amended) at members named "A" and "B C". -/
theorem unionType_name_join_witness :
    getTypeName (Ty.enumType [] (some "A")) ≠ "" ∧
      getTypeName (Ty.unionType
          [Ty.enumType [] (some "A"), Ty.enumType [] (some "B C")]) =
        joinNames (List.map getTypeName
          [Ty.enumType [] (some "A"), Ty.enumType [] (some "B C")]) :=
  ⟨by decide, unionType_name_join _ _ (by decide)⟩

/--
C10: for union and enumerated descriptors, exhaustive conformity implies
plain conformity — exactly one match in particular means at least one
match.
-/
theorem exhaustive_implies_conformity (d : Ty) (x : Value)
    (h1 : isUnionOrEnumType d = true)
    (h2 : exhaustivelyCheckConformity d x = true) :
    checkConformity d x = true := by
  cases d with
  | leaf n c e => simp [isUnionOrEnumType] at h1
  | optionalType t => simp [isUnionOrEnumType] at h1
  | enumType vals nm =>
      simp [exhaustivelyCheckConformity, exhaustScan_eq_true] at h2
      have hpos : 0 < vals.countP (fun a => strictEq a x) := by omega
      obtain ⟨a, ha, hax⟩ := List.countP_pos_iff.mp hpos
      simp only [checkConformity, List.any_eq_true]
      exact ⟨a, ha, hax⟩
  | unionType ts =>
      simp [exhaustivelyCheckConformity, exhaustScan_eq_true] at h2
      have hpos : 0 < ts.countP (fun t => checkConformity t x) := by omega
      obtain ⟨t, ht, htx⟩ := List.countP_pos_iff.mp hpos
      simp only [checkConformity, checkConformityList_eq_any,
        List.any_eq_true]
      exact ⟨t, ht, htx⟩

/-- Witness for C10 at the enum over [null] checked on null. -/
theorem exhaustive_implies_conformity_witness :
    isUnionOrEnumType (Ty.enumType [Value.null] none) = true ∧
      exhaustivelyCheckConformity (Ty.enumType [Value.null] none)
          Value.null = true ∧
      checkConformity (Ty.enumType [Value.null] none) Value.null = true :=
  ⟨rfl, rfl, exhaustive_implies_conformity _ _ rfl rfl⟩

/--
C1 (amended): `prependPath` returns a record whose path is the given
segments followed by the original record's path and whose `expectedType`
and `actualValue` are the original's; its `actualType`, however, is
re-inferred from `actualValue` (the constructor argument is not forwarded),
so it equals the original's `actualType` exactly when that was the inferred
one. The original record is untouched (the embedding is pure; the source
method builds a fresh record and never writes to `this`).
-/
theorem prependPath_path_and_fields (infer : Value → Ty)
    (e : MalformedObjectError) (segments : List String) :
    (MalformedObjectError.prependPath infer e segments).path =
        segments ++ e.path ∧
      (MalformedObjectError.prependPath infer e segments).expectedType =
        e.expectedType ∧
      (MalformedObjectError.prependPath infer e segments).actualValue =
        e.actualValue ∧
      (MalformedObjectError.prependPath infer e segments).actualType =
        infer e.actualValue :=
  ⟨rfl, rfl, rfl, rfl⟩

/--
C1 counterexample: a record built with an explicit `actualType` (here the
empty union) differing from the inferred type of its `actualValue` does not
keep its `actualType` across `prependPath` — the new record carries the
re-inferred type instead.
-/
theorem prependPath_actualType_not_preserved :
    (MalformedObjectError.prependPath modelInfer
        (MalformedObjectError.make modelInfer [] (Ty.unionType [])
          Value.null (some (Ty.unionType []))) ["k"]).actualType ≠
      (MalformedObjectError.make modelInfer [] (Ty.unionType [])
        Value.null (some (Ty.unionType []))).actualType := by
  simp [MalformedObjectError.prependPath, MalformedObjectError.make,
    modelInfer]
